import Mathlib

/-!
Verification of the RPC transport and marshalling core of the
Remote-File-Procedure-Call repository.

Byte streams are modelled as `List Nat` (one entry per byte).  The C sources
build wire messages out of ASCII header lines terminated by `"\r\n"` and locate
them with `strstr`, which scans a NUL-terminated string; both are modelled
faithfully below.  C `int`/`ssize_t` values are modelled as `Int`, C `size_t`
counts as `Nat`.
-/

namespace RFPC

/-- ASCII carriage return. -/
def CR : Nat := 13
/-- ASCII line feed. -/
def LF : Nat := 10
/-- ASCII colon, the `COLON` macro of marshall.h / socket.h. -/
def COLONB : Nat := 58

/-- `LINE_SPLIT` / `CRLF` from marshall.h and socket.h: the bytes of `"\r\n"`. -/
def crlf : List Nat := [13, 10]

/-- `HEADER_SPLIT` from socket.h: the bytes of `"\r\n\r\n"`. -/
def headerSplit : List Nat := [13, 10, 13, 10]

/-- Bytes of `HEADER_COMMAND = "Command"`. -/
def headerCommand : List Nat := [67, 111, 109, 109, 97, 110, 100]

/-- Bytes of `HEADER_PARAM_NUM = "ParamNum"`. -/
def headerParamNum : List Nat := [80, 97, 114, 97, 109, 78, 117, 109]

/-- Bytes of `HEADER_ERRNO = "Errno"`. -/
def headerErrno : List Nat := [69, 114, 114, 110, 111]

/-- Bytes of `HEADER_RETURN_NUM = "ReturnNum"`. -/
def headerReturnNum : List Nat := [82, 101, 116, 117, 114, 110, 78, 117, 109]

/-- Bytes of `HEADER_MSG_LEN = "Message-Length"`. -/
def headerMsgLen : List Nat := [77, 101, 115, 115, 97, 103, 101, 45, 76, 101, 110, 103, 116, 104]

/-- Bytes of `HEADER_TREE_NAME = "NodeName"`. -/
def headerTreeName : List Nat := [78, 111, 100, 101, 78, 97, 109, 101]

/-- Bytes of `HEADER_TREE_CHILD_NUM = "ChildNum"`. -/
def headerTreeChildNum : List Nat := [67, 104, 105, 108, 100, 78, 117, 109]

/-- `OFFSET` from marshall.h: the additive bias between the server's native
file handles and the client-visible remote handles. -/
def OFFSET : Int := 12345

/-- `TEMP_BUF_SIZE` from marshall.h. -/
def TEMP_BUF_SIZE : Nat := 1024

/-! ### Decimal ASCII codec

`sprintf("%d" / "%ld" / "%zu", v)` prints the canonical decimal of `v`;
`sscanf("%d" / "%zu")` and `atoi`/`atol` read it back.  The printer is written
with explicit fuel so that it is structurally recursive (the fuel only has to
dominate the number of digits). -/

/-- Big-endian decimal digit bytes of `n` (empty for `n = 0`); `fuel` bounds
the number of divisions by 10 and is always chosen `≥ n`. -/
def natDecGo : Nat → Nat → List Nat
  | 0, _ => []
  | fuel + 1, n => if n = 0 then [] else natDecGo fuel (n / 10) ++ [n % 10 + 48]

/-- Decimal ASCII bytes of a `Nat`, as printed by `sprintf("%zu", n)`. -/
def natDec (n : Nat) : List Nat := if n = 0 then [48] else natDecGo n n

/-- Decimal ASCII bytes of an `Int`, as printed by `sprintf("%d"/"%ld", i)`. -/
def intDec (i : Int) : List Nat := if i < 0 then 45 :: natDec i.natAbs else natDec i.natAbs

/-- Is `b` the ASCII code of a decimal digit? -/
def isDigitB (b : Nat) : Bool := 48 ≤ b && b ≤ 57

/-- C `isspace`: space, and the control characters 9–13. -/
def isSpaceB (b : Nat) : Bool := b = 32 || (9 ≤ b && b ≤ 13)

/-- Value of a big-endian list of ASCII digit bytes. -/
def digitsVal (l : List Nat) : Nat := l.foldl (fun a b => 10 * a + (b - 48)) 0

/-- `sscanf(buf, "%d", &x)`: skip whitespace, optional sign, then at least one
digit; trailing bytes are ignored.  `none` models a conversion failure, after
which the C target variable stays uninitialised (undefined behaviour for the
callers modelled here, which read it unconditionally). -/
def sscanfD (l : List Nat) : Option Int :=
  match l.dropWhile isSpaceB with
  | [] => none
  | b :: r =>
    if b = 45 then (parseRun r).map (fun n => -(n : Int))
    else if b = 43 then (parseRun r).map (fun n => (n : Int))
    else (parseRun (b :: r)).map (fun n => (n : Int))
where
  /-- at least one leading digit, value of the maximal digit run -/
  parseRun (l : List Nat) : Option Nat :=
    let ds := l.takeWhile isDigitB
    if ds.isEmpty then none else some (digitsVal ds)

/-- `sscanf(buf, "%zu", &x)`.  A leading `'-'` would wrap around modulo
`2^64` in C; that path is never exercised by the wire formats modelled here
and is left unmodelled (`none`). -/
def sscanfZu (l : List Nat) : Option Nat :=
  match l.dropWhile isSpaceB with
  | [] => none
  | b :: r =>
    if b = 45 then none
    else if b = 43 then sscanfD.parseRun r
    else sscanfD.parseRun (b :: r)

/-- C `atoi` / `atol`: like `%d` but a missing digit run yields 0 instead of
an error. -/
def atoiC (l : List Nat) : Int :=
  match l.dropWhile isSpaceB with
  | [] => 0
  | b :: r =>
    if b = 45 then -(digitsVal (r.takeWhile isDigitB) : Int)
    else if b = 43 then (digitsVal (r.takeWhile isDigitB) : Int)
    else (digitsVal ((b :: r).takeWhile isDigitB) : Int)

/-! ### `strstr` and the header-line / slot parsing idiom of marshall.c

`deserialize_request`, `deserialize_response` and `deserialize_node` all use
the same idiom for a header line:

    line_end = strstr(buf_ptr, LINE_SPLIT);
    colon    = strstr(buf_ptr, COLON);
    assert(colon < line_end);
    memcpy(temp_buf, colon + 1, line_end - colon - 1);

`strstr` scans a NUL-terminated string, so its search stops at the first NUL
byte of the buffer.  A failed `strstr` (NULL) or a failed `assert` leaves no
well-defined result (NULL-pointer arithmetic in the `memcpy`, or an abort);
both are modelled as `none`. -/

/-- Index of the first occurrence of `pat` in `hay`, scanning as C `strstr`
does: the scan stops at a NUL byte, and `none` models a NULL result. -/
def strstrP (hay pat : List Nat) : Option Nat :=
  match hay with
  | [] => none
  | b :: rest =>
    if b = 0 then none
    else if pat.isPrefixOf (b :: rest) then some 0
    else (strstrP rest pat).map (· + 1)

/-- One `Header:<value>` line: locate the first `"\r\n"` and the first `':'`
(the value bytes in all wire formats produced by this code are far below
`TEMP_BUF_SIZE`, so the bounded `temp_buf` copy cannot overflow and is not
modelled).  Returns the value bytes and the buffer after the line. -/
def parseHeaderLine (buf : List Nat) : Option (List Nat × List Nat) := do
  let le ← strstrP buf crlf
  let co ← strstrP buf [58]
  if co < le then
    some ((buf.take le).drop (co + 1), buf.drop (le + 2))
  else none

/-- One parameter/return slot: a decimal size line, then exactly that many raw
content bytes, then `"\r\n"`.  The `memcpy` of the content reads `size` bytes
unconditionally; if the buffer holds fewer the read is out of bounds (`none`).
The trailing `"\r\n"` is skipped without being checked, exactly as in the C. -/
def parseSlot (buf : List Nat) : Option (List Nat × List Nat) := do
  let le ← strstrP buf crlf
  let sz ← sscanfZu (buf.take le)
  let rest := buf.drop (le + 2)
  if sz ≤ rest.length then
    some (rest.take sz, rest.drop (sz + 2))
  else none

/-- The slot loop of `deserialize_request` / `deserialize_response`:
`n` slots, two lines each. -/
def parseSlots : Nat → List Nat → Option (List (List Nat))
  | 0, _ => some []
  | n + 1, buf => do
    let (p, rest) ← parseSlot buf
    let ps ← parseSlots n rest
    some (p :: ps)

/-! ### Request / response data model (marshall.h)

`init_request`/`pack_integral`/`pack_pointer` always keep
`param_sizes[i]` equal to the byte length of `params[i]`, so a slot is one
byte list and its declared size is its length.  Likewise for responses
(`init_response`/`marshall_integral`/`marshall_pointer`). -/

/-- `rpc_request`: `param_num` is `params.length`. -/
structure rpc_request where
  command_op : Int
  params : List (List Nat)
deriving DecidableEq, Repr

/-- `rpc_response` (marshall.h with `return_num`/`return_sizes`/`return_vals`):
`return_num` is `return_vals.length`. -/
structure rpc_response where
  errno_num : Int
  return_vals : List (List Nat)
deriving DecidableEq, Repr

/-- The byte stream of the slot section: per slot a decimal size line and a
raw content line. -/
def serializeSlots (ps : List (List Nat)) : List Nat :=
  (ps.map (fun p => natDec p.length ++ crlf ++ p ++ crlf)).flatten

/-- `serialize_request` (marshall.c):
`"Command:<op>\r\nParamNum:<n>\r\n"` then the slot section. -/
def serialize_request (r : rpc_request) : List Nat :=
  headerCommand ++ [58] ++ intDec r.command_op ++ crlf ++
  headerParamNum ++ [58] ++ natDec r.params.length ++ crlf ++
  serializeSlots r.params

/-- `deserialize_request` (marshall.c): two header lines parsed with the
`strstr` idiom, then `param_num` slots.  A negative parsed `param_num` runs
the slot loop zero times (`Int.toNat`). -/
def deserialize_request (buf : List Nat) : Option rpc_request := do
  let (opBytes, r1) ← parseHeaderLine buf
  let op ← sscanfD opBytes
  let (pnBytes, r2) ← parseHeaderLine r1
  let pn ← sscanfD pnBytes
  let ps ← parseSlots pn.toNat r2
  some ⟨op, ps⟩

/-- `serialize_response` (marshall.c, unnamed/part_003):
`"Errno:<e>\r\nReturnNum:<m>\r\n"` then the slot section. -/
def serialize_response (p : rpc_response) : List Nat :=
  headerErrno ++ [58] ++ intDec p.errno_num ++ crlf ++
  headerReturnNum ++ [58] ++ natDec p.return_vals.length ++ crlf ++
  serializeSlots p.return_vals

/-- `deserialize_response` (marshall.c, unnamed/part_003): mirror of
`deserialize_request` with the response headers. -/
def deserialize_response (buf : List Nat) : Option rpc_response := do
  let (errBytes, r1) ← parseHeaderLine buf
  let err ← sscanfD errBytes
  let (rnBytes, r2) ← parseHeaderLine r1
  let rn ← sscanfD rnBytes
  let vs ← parseSlots rn.toNat r2
  some ⟨err, vs⟩

/-! ### Message framing (socket.c) -/

/-- `send_message`: the envelope `"Message-Length:<len>\r\n\r\n<payload>"`
that `send_message` writes for a payload `m`. -/
def envelope (m : List Nat) : List Nat :=
  headerMsgLen ++ [58] ++ natDec m.length ++ headerSplit ++ m

/-- `parse_message` (socket.c): look for `"\r\n\r\n"`, then for the first
`':'` before it; `atoi` the length field (non-numeric gives 0, which is only
logged and then used); if the buffer holds the whole message, cut it out and
compact the remainder to the front.  Returns the extracted message (or
`none`) together with the new buffer contents.  A negative `atoi` result is
converted to `size_t` in C, giving a value near `2^64` that always fails the
available-bytes test on the 1 MiB buffer; that branch therefore returns
`none` here. -/
def parse_message (buf : List Nat) : Option (List Nat) × List Nat :=
  match strstrP buf headerSplit with
  | none => (none, buf)
  | some split =>
    match strstrP buf [58] with
    | none => (none, buf)
    | some colon =>
      if colon < split then
        let ml := atoiC ((buf.take split).drop (colon + 1))
        if 0 ≤ ml then
          if split + 4 + ml.toNat ≤ buf.length then
            (some ((buf.drop (split + 4)).take ml.toNat), buf.drop (split + 4 + ml.toNat))
          else (none, buf)
        else (none, buf)
      else (none, buf)

/-- `k` successive calls to `parse_message`, collecting the extracted
messages and the final buffer contents (a call that extracts nothing stops
the iteration). -/
def parseMessageIter : Nat → List Nat → List (List Nat) × List Nat
  | 0, buf => ([], buf)
  | k + 1, buf =>
    match parse_message buf with
    | (some m, rest) =>
      let (ms, final) := parseMessageIter k rest
      (m :: ms, final)
    | (none, rest) => ([], rest)

/-! ### Directory-tree codec (marshall.c, unnamed/part_003) -/

/-- `struct dirtreenode`: a name and an ordered list of children
(`num_subdirs` is `subdirs.length`). -/
inductive dirtreenode where
  | mk (name : List Nat) (subdirs : List dirtreenode)

/-- Name of a node. -/
def dirtreenode.name : dirtreenode → List Nat
  | .mk n _ => n

/-- Children of a node. -/
def dirtreenode.subdirs : dirtreenode → List dirtreenode
  | .mk _ s => s

mutual

/-- `serialize_node`: `"NodeName:<name>\r\nChildNum:<k>\r\n"` then the
children, depth first.  The name line is built by
`sprintf(temp_buf, "%s%s%s%s", HEADER_TREE_NAME, COLON, node->name, LINE_SPLIT)`
into the 1024-byte `temp_buf`; with the 8-byte header, the colon, the two
line-terminator bytes and the NUL this overflows the buffer unless
`name.length + 12 ≤ 1024`, so longer names have no defined result (`none`).
`%s` also stops at a NUL in the name; names are NUL-free in every use modelled
here. -/
def serialize_node : dirtreenode → Option (List Nat)
  | .mk name children =>
    if name.length + 12 ≤ TEMP_BUF_SIZE then
      (serialize_children children).map (fun tail =>
        headerTreeName ++ [58] ++ name ++ crlf ++
        headerTreeChildNum ++ [58] ++ natDec children.length ++ crlf ++ tail)
    else none

/-- The recursive child loop of `serialize_node`. -/
def serialize_children : List dirtreenode → Option (List Nat)
  | [] => some []
  | c :: cs => do
    let s ← serialize_node c
    let t ← serialize_children cs
    some (s ++ t)

end

/-- `serialize_dirtree` is `serialize_node` on the root. -/
def serialize_dirtree (t : dirtreenode) : Option (List Nat) := serialize_node t

mutual

/-- `deserialize_node`: parse the name line (the name taken up to the first
NUL, as `strlen(temp_buf)` does) and the `ChildNum` line with the `strstr`
idiom, then recurse into the children advancing the shared cursor.  `fuel`
only bounds the recursion depth; every serialized node is at least one byte,
so `buf.length + 1` fuel always suffices.  A negative parsed child count
would leave a `num_subdirs < 0` node that a rose tree cannot represent; it is
unreachable from serializer output and modelled as `none`. -/
def deserialize_node : Nat → List Nat → Option (dirtreenode × List Nat)
  | 0, _ => none
  | fuel + 1, buf => do
    let (nameSeg, r1) ← parseHeaderLine buf
    let nm := nameSeg.takeWhile (fun b => b ≠ 0)
    let (cnSeg, r2) ← parseHeaderLine r1
    let cn ← sscanfD cnSeg
    if 0 ≤ cn then
      (deserialize_children fuel cn.toNat r2).map (fun (cs, rest) => (.mk nm cs, rest))
    else none
termination_by fuel _ => (fuel, 0)

/-- The recursive child loop of `deserialize_node`. -/
def deserialize_children : Nat → Nat → List Nat → Option (List dirtreenode × List Nat)
  | _, 0, buf => some ([], buf)
  | fuel, k + 1, buf => do
    let (c, r) ← deserialize_node fuel buf
    let (cs, rest) ← deserialize_children fuel k r
    some (c :: cs, rest)
termination_by fuel k _ => (fuel, k + 1)

end

/-- `deserialize_dirtree`: run `deserialize_node` on the whole buffer (fuel
`buf.length + 1` dominates any possible nesting depth). -/
def deserialize_dirtree (buf : List Nat) : Option dirtreenode :=
  (deserialize_node (buf.length + 1) buf).map (·.1)

mutual

/-- Number of nodes of a tree. -/
def nodeCount : dirtreenode → Nat
  | .mk _ children => 1 + nodeCountList children

/-- Number of nodes of a forest. -/
def nodeCountList : List dirtreenode → Nat
  | [] => 0
  | c :: cs => nodeCount c + nodeCountList cs

end

mutual

/-- Names valid for the round trip: no NUL, no `'\r'`, no `'\n'` in any
name, and every name short enough for the serializer's `temp_buf`
(`length ≤ 1012 = TEMP_BUF_SIZE - 12`). -/
def treeNamesOk : dirtreenode → Bool
  | .mk name children =>
    (name.all fun b => decide (b ≠ 0) && decide (b ≠ 13) && decide (b ≠ 10)) &&
    decide (name.length + 12 ≤ TEMP_BUF_SIZE) && forestNamesOk children

/-- `treeNamesOk` on every tree of a forest. -/
def forestNamesOk : List dirtreenode → Bool
  | [] => true
  | c :: cs => treeNamesOk c && forestNamesOk cs

end

/-! ### Stream transport (socket.c) -/

/-- Result of one `send(2)` call: either some bytes were accepted, or the
call failed with an `errno` value. -/
inductive SendResult where
  | sent (n : Nat)
  | errRes (e : Int)
deriving DecidableEq, Repr

/-- Linux `EINTR`. -/
def EINTR : Int := 4
/-- Linux `EAGAIN` (= `EWOULDBLOCK`). -/
def EAGAIN : Int := 11

/-- The loop of `robust_write`, driven by the trace of `send` outcomes:

    while (curr_write < to_write) {
      if ((write = send(...)) < 0) {
        if (errno != EINTR || errno != EAGAIN) { ...; return curr_write; }
        write = 0;
      }
      curr_write += write;
    }
    return curr_write;

`none` models running out of trace while the loop still wants to send. -/
def robustWriteGo : List SendResult → Nat → Nat → Option Nat
  | tr, curr, to_write =>
    if curr < to_write then
      match tr with
      | [] => none
      | .sent n :: tr2 => robustWriteGo tr2 (curr + n) to_write
      | .errRes e :: tr2 =>
        if e ≠ EINTR ∨ e ≠ EAGAIN then some curr
        else robustWriteGo tr2 curr to_write
    else some curr

/-- `robust_write(fd, buf, to_write)` under a given trace of `send`
outcomes: the returned byte count. -/
def robust_write (tr : List SendResult) (to_write : Nat) : Option Nat :=
  robustWriteGo tr 0 to_write

/-! ### Server dispatcher response construction (server.c) -/

/-- The handle translation of `serve_open`:
`if (fd != -1) fd += OFFSET;`. -/
def open_translate (fd : Int) : Int := if fd ≠ -1 then fd + OFFSET else fd

/-- `init_response(errno, 1)` followed by `marshall_integral(response, 0, v)`:
the one-slot integral response built by `serve_open`, `serve_close`,
`serve_write`, `serve_lseek` and `serve_unlink`. -/
def integral_response (err v : Int) : rpc_response := ⟨err, [intDec v]⟩

/-- The response `serve_open` builds for a native `open` result `nfd` and the
`errno` it left: one slot holding the (possibly offset) handle. -/
def serve_open_response (nfd err : Int) : rpc_response :=
  integral_response err (open_translate nfd)

/-- The response `serve_read` builds: slot 0 the return value, slot 1 the
first `return_val` bytes of the read buffer when the syscall succeeded, 0
bytes otherwise (`marshall_pointer(..., (return_val >= 0) ? return_val : 0)`).
`tmp` models `temp_read_buf`, which always holds at least `rv` bytes. -/
def serve_read_response (rv err : Int) (tmp : List Nat) : rpc_response :=
  ⟨err, [intDec rv, tmp.take (if 0 ≤ rv then rv.toNat else 0)]⟩

/-- The response `serve_getdirentries` builds: return value, entries blob
(0 bytes on failure), and the new `basep`. -/
def serve_getdirentries_response (rv err : Int) (tmp : List Nat) (basep : Int) : rpc_response :=
  ⟨err, [intDec rv, tmp.take (if 0 ≤ rv then rv.toNat else 0), intDec basep]⟩

/-- `sizeof(struct stat)` on the x86-64 Linux ABI both endpoints share. -/
def STAT_SIZE : Nat := 144

/-- The response `serve_stat` builds: return value and the raw
`sizeof(struct stat)`-byte image of `temp_stat`, copied whether or not the
syscall succeeded (`marshall_pointer(response, 1, &temp_stat, sizeof(struct stat))`).
`img` models the struct image and always has `STAT_SIZE` bytes. -/
def serve_stat_response (rv err : Int) (img : List Nat) : rpc_response :=
  ⟨err, [intDec rv, img]⟩

/-! ### Client stub result handling (mylib.c) -/

/-- The tail of the client `open`/`close`/`write`/`lseek`/`unlink` stubs on a
decoded response: `v = atoi(response->return_vals[0]);
if (v < 0) errno = response->errno_num; return v;`.  The result pairs the
returned value with the value written to `errno`, if any. -/
def close_stub (resp : rpc_response) : Int × Option Int :=
  let v := atoiC (resp.return_vals.headD [])
  (v, if v < 0 then some resp.errno_num else none)

/-- The tail of the client `read` stub: on a non-negative return value the
returned bytes are copied into the caller's buffer
(`memcpy(buf, response->return_vals[1], remote_return_size)`); on a negative
one `errno` is set and nothing is copied.  The third component is the bytes
copied out; a copy longer than the slot would read out of bounds (`none`
inside). -/
def read_stub (resp : rpc_response) : Int × Option Int × Option (List Nat) :=
  let v := atoiC (resp.return_vals.headD [])
  if v < 0 then (v, some resp.errno_num, none)
  else
    (v, none,
      if v.toNat ≤ (resp.return_vals.getD 1 []).length then
        some ((resp.return_vals.getD 1 []).take v.toNat)
      else none)

/-- The `open` RPC end to end on the client side: the server serializes the
response it built from the native result, the client deserializes it and runs
the stub tail. -/
def open_rpc (nfd err : Int) : Option (Int × Option Int) :=
  (deserialize_response (serialize_response (serve_open_response nfd err))).map close_stub

/-- A one-slot integral RPC (`close`, `write`, `lseek`, `unlink`) end to end
on the client side. -/
def close_rpc (v err : Int) : Option (Int × Option Int) :=
  (deserialize_response (serialize_response (integral_response err v))).map close_stub

/-- The `read` RPC end to end on the client side, for a response carrying
return value `v` and data slot `data`. -/
def read_rpc (v err : Int) (data : List Nat) : Option (Int × Option Int × Option (List Nat)) :=
  (deserialize_response (serialize_response ⟨err, [intDec v, data]⟩)).map read_stub

/-- The receive loop of `wait_response` after the entry reset: append each
chunk `greedy_read` delivers, try `parse_message` once per read, and decode
the first complete message as a response.  `none` models blocking forever
with no further data. -/
def waitResponseGo : List Nat → List (List Nat) → Option rpc_response
  | _, [] => none
  | buf, chunk :: rest =>
    match parse_message (buf ++ chunk) with
    | (some msg, _) => deserialize_response msg
    | (none, buf2) => waitResponseGo buf2 rest

/-- `wait_response` (mylib.c): on entry the session buffer is zeroed and
`storage_size` reset to 0 —

    memset(storage_buf, 0, STORAGE_SIZE + 1);
    storage_size = 0;

— so the previous buffer contents `stale` are discarded before the loop
starts on an empty buffer. -/
def wait_response (stale : List Nat) (incoming : List (List Nat)) : Option rpc_response :=
  let _ := stale
  waitResponseGo [] incoming

/-! ## Lemmas about the decimal codec -/

theorem natDecGo_mem (fuel : Nat) : ∀ n b, b ∈ natDecGo fuel n → 48 ≤ b ∧ b ≤ 57 := by
  induction fuel with
  | zero => intro n b hb; simp [natDecGo] at hb
  | succ fuel ih =>
    intro n b hb
    by_cases hn : n = 0
    · simp [natDecGo, hn] at hb
    · simp only [natDecGo, if_neg hn, List.mem_append, List.mem_singleton] at hb
      rcases hb with hb | hb
      · exact ih _ _ hb
      · have : n % 10 < 10 := Nat.mod_lt _ (by omega)
        omega

theorem natDec_mem (n : Nat) : ∀ b ∈ natDec n, 48 ≤ b ∧ b ≤ 57 := by
  intro b hb
  by_cases hn : n = 0
  · simp [natDec, hn] at hb; omega
  · simp only [natDec, if_neg hn] at hb
    exact natDecGo_mem n n b hb

theorem natDec_ne_nil (n : Nat) : natDec n ≠ [] := by
  by_cases hn : n = 0
  · simp [natDec, hn]
  · obtain ⟨m, rfl⟩ : ∃ m, n = m + 1 := ⟨n - 1, by omega⟩
    simp [natDec, natDecGo, hn]

theorem digitsVal_append_digit (l : List Nat) (d : Nat) :
    digitsVal (l ++ [d]) = 10 * digitsVal l + (d - 48) := by
  simp [digitsVal, List.foldl_append]

theorem digitsVal_natDecGo (fuel : Nat) : ∀ n, n ≤ fuel → digitsVal (natDecGo fuel n) = n := by
  induction fuel with
  | zero => intro n hn; interval_cases n; simp [natDecGo, digitsVal]
  | succ fuel ih =>
    intro n hn
    by_cases h : n = 0
    · simp [natDecGo, h, digitsVal]
    · have hdiv : n / 10 ≤ fuel := by omega
      simp only [natDecGo, if_neg h, digitsVal_append_digit, ih _ hdiv]
      omega

theorem digitsVal_natDec (n : Nat) : digitsVal (natDec n) = n := by
  by_cases h : n = 0
  · simp [natDec, h, digitsVal]
  · simp only [natDec, if_neg h]
    exact digitsVal_natDecGo n n le_rfl

theorem takeWhile_isDigitB_natDec (n : Nat) : (natDec n).takeWhile isDigitB = natDec n := by
  refine List.takeWhile_eq_self_iff.mpr ?_
  intro b hb
  have := natDec_mem n b hb
  simp [isDigitB]; omega

theorem parseRun_natDec (n : Nat) : sscanfD.parseRun (natDec n) = some n := by
  have hne : ¬ (natDec n).isEmpty = true := by
    simpa [List.isEmpty_iff] using natDec_ne_nil n
  simp only [sscanfD.parseRun, takeWhile_isDigitB_natDec, if_neg hne, digitsVal_natDec]

theorem natDec_cons (n : Nat) :
    ∃ b l, natDec n = b :: l ∧ 48 ≤ b ∧ b ≤ 57 := by
  rcases h : natDec n with _ | ⟨b, l⟩
  · exact absurd h (natDec_ne_nil n)
  · have hb := natDec_mem n b (by rw [h]; exact List.mem_cons_self _ _)
    exact ⟨b, l, rfl, hb.1, hb.2⟩

theorem sscanfD_natDec (n : Nat) : sscanfD (natDec n) = some (n : Int) := by
  obtain ⟨b, l, hcons, hb1, hb2⟩ := natDec_cons n
  have hsp : isSpaceB b = false := by simp [isSpaceB]; omega
  rw [sscanfD, hcons]
  simp only [List.dropWhile_cons, hsp, Bool.false_eq_true, if_false]
  rw [if_neg (by omega : ¬ b = 45), if_neg (by omega : ¬ b = 43), ← hcons, parseRun_natDec]
  rfl

theorem sscanfZu_natDec (n : Nat) : sscanfZu (natDec n) = some n := by
  obtain ⟨b, l, hcons, hb1, hb2⟩ := natDec_cons n
  have hsp : isSpaceB b = false := by simp [isSpaceB]; omega
  rw [sscanfZu, hcons]
  simp only [List.dropWhile_cons, hsp, Bool.false_eq_true, if_false]
  rw [if_neg (by omega : ¬ b = 45), if_neg (by omega : ¬ b = 43), ← hcons, parseRun_natDec]

theorem sscanfD_intDec (i : Int) : sscanfD (intDec i) = some i := by
  by_cases h : i < 0
  · rw [intDec, if_pos h, sscanfD]
    simp [parseRun_natDec, isSpaceB]
    simp [abs_of_neg h]
  · rw [intDec, if_neg h]
    rw [sscanfD_natDec]
    congr 1
    omega

theorem atoiC_natDec (n : Nat) : atoiC (natDec n) = (n : Int) := by
  obtain ⟨b, l, hcons, hb1, hb2⟩ := natDec_cons n
  have hsp : isSpaceB b = false := by simp [isSpaceB]; omega
  rw [atoiC, hcons]
  simp only [List.dropWhile_cons, hsp, Bool.false_eq_true, if_false]
  rw [if_neg (by omega : ¬ b = 45), if_neg (by omega : ¬ b = 43), ← hcons,
    takeWhile_isDigitB_natDec, digitsVal_natDec]

theorem atoiC_intDec (i : Int) : atoiC (intDec i) = i := by
  by_cases h : i < 0
  · rw [intDec, if_pos h, atoiC]
    simp [takeWhile_isDigitB_natDec, digitsVal_natDec, isSpaceB]
    simp [abs_of_neg h]
  · rw [intDec, if_neg h, atoiC_natDec]
    omega

theorem intDec_mem (i : Int) : ∀ b ∈ intDec i, b = 45 ∨ (48 ≤ b ∧ b ≤ 57) := by
  intro b hb
  by_cases h : i < 0
  · rw [intDec, if_pos h] at hb
    rcases List.mem_cons.mp hb with hb | hb
    · exact Or.inl hb
    · exact Or.inr (natDec_mem _ b hb)
  · rw [intDec, if_neg h] at hb
    exact Or.inr (natDec_mem _ b hb)

/-! ## Lemmas about `strstr` and the parsing idiom -/

/-- `strstr` finds the pattern right after a block `l1` that contains neither
a NUL nor the pattern's first byte. -/
theorem strstrP_append_first (l1 rest : List Nat) (c : Nat) (pat : List Nat)
    (hp : pat.head? = some c) (hc0 : c ≠ 0)
    (h1 : ∀ b ∈ l1, b ≠ 0 ∧ b ≠ c)
    (h2 : pat.isPrefixOf rest = true) :
    strstrP (l1 ++ rest) pat = some l1.length := by
  obtain ⟨pt, rfl⟩ : ∃ pt, pat = c :: pt := by
    cases pat with
    | nil => simp at hp
    | cons x xs =>
      simp only [List.head?_cons, Option.some_inj] at hp
      exact ⟨xs, by rw [hp]⟩
  induction l1 with
  | nil =>
    obtain ⟨rt, hrt, _⟩ : ∃ rt, rest = c :: rt ∧ pt.isPrefixOf rt = true := by
      cases rest with
      | nil => simp [List.isPrefixOf] at h2
      | cons x xs =>
        simp only [List.isPrefixOf, Bool.and_eq_true, beq_iff_eq] at h2
        exact ⟨xs, by rw [h2.1], h2.2⟩
    subst hrt
    simp [strstrP, hc0, h2]
  | cons b l1 ih =>
    have hb := h1 b (List.mem_cons_self _ _)
    have hpre : (c :: pt).isPrefixOf (b :: (l1 ++ rest)) = false := by
      simp only [List.isPrefixOf, Bool.and_eq_false_iff, beq_eq_false_iff_ne, ne_eq]
      exact Or.inl (fun hcb => hb.2 hcb.symm)
    rw [List.cons_append, strstrP]
    rw [if_neg hb.1, hpre]
    simp only [Bool.false_eq_true, if_false]
    rw [ih (fun x hx => h1 x (List.mem_cons_of_mem _ hx))]
    rfl

/-- `parseHeaderLine` on a well-formed header line `letters:val\r\n`:
the header letters contain no NUL, CR or colon, the value no NUL or CR
(a colon inside the value is harmless because `strstr` returns the first
match). -/
theorem parseHeaderLine_exact (letters val rest : List Nat)
    (hl : ∀ b ∈ letters, b ≠ 0 ∧ b ≠ 13 ∧ b ≠ 58)
    (hv : ∀ b ∈ val, b ≠ 0 ∧ b ≠ 13) :
    parseHeaderLine (letters ++ [58] ++ val ++ crlf ++ rest) = some (val, rest) := by
  have hbuf : letters ++ [58] ++ val ++ crlf ++ rest =
      (letters ++ [58] ++ val) ++ (crlf ++ rest) := by
    simp [List.append_assoc]
  have hbuf2 : letters ++ [58] ++ val ++ crlf ++ rest =
      letters ++ (58 :: (val ++ (crlf ++ rest))) := by
    simp [List.append_assoc]
  have hle : strstrP (letters ++ [58] ++ val ++ crlf ++ rest) crlf =
      some (letters ++ [58] ++ val).length := by
    rw [hbuf]
    refine strstrP_append_first _ _ 13 _ rfl (by omega) ?_ ?_
    · intro b hb
      simp only [List.mem_append, List.mem_singleton] at hb
      rcases hb with (hb | hb) | hb
      · exact ⟨(hl b hb).1, (hl b hb).2.1⟩
      · omega
      · exact hv b hb
    · exact List.isPrefixOf_iff_prefix.mpr (List.prefix_append _ _)
  have hco : strstrP (letters ++ [58] ++ val ++ crlf ++ rest) [58] =
      some letters.length := by
    rw [hbuf2]
    refine strstrP_append_first _ _ 58 _ rfl (by omega) ?_ ?_
    · exact fun b hb => ⟨(hl b hb).1, (hl b hb).2.2⟩
    · simp [List.isPrefixOf]
  have hlen : (letters ++ [58] ++ val).length = letters.length + 1 + val.length := by
    simp
    omega
  rw [parseHeaderLine, hle, hco]
  simp only [Option.bind_eq_bind, Option.some_bind]
  rw [if_pos (by omega)]
  congr 1
  have htake : (letters ++ [58] ++ val ++ crlf ++ rest).take (letters ++ [58] ++ val).length =
      letters ++ [58] ++ val := by
    rw [hbuf]; exact List.take_left _ _
  have hdropval : (letters ++ [58] ++ val).drop (letters.length + 1) = val := by
    have : letters.length + 1 = (letters ++ [58]).length := by simp
    rw [this]; exact List.drop_left _ _
  have hdroprest : (letters ++ [58] ++ val ++ crlf ++ rest).drop
      ((letters ++ [58] ++ val).length + 2) = rest := by
    rw [hbuf, List.drop_append 2]
    simp [crlf]
  rw [htake, hdropval, hdroprest]

/-- `parseSlot` on a well-formed slot: a decimal size line followed by exactly
that many raw content bytes (which may be any bytes at all) and `"\r\n"`. -/
theorem parseSlot_exact (p R : List Nat) :
    parseSlot (natDec p.length ++ crlf ++ p ++ crlf ++ R) = some (p, R) := by
  have hbuf : natDec p.length ++ crlf ++ p ++ crlf ++ R =
      natDec p.length ++ (crlf ++ (p ++ (crlf ++ R))) := by
    simp [List.append_assoc]
  have hle : strstrP (natDec p.length ++ crlf ++ p ++ crlf ++ R) crlf =
      some (natDec p.length).length := by
    rw [hbuf]
    refine strstrP_append_first _ _ 13 _ rfl (by omega) ?_ ?_
    · intro b hb
      have := natDec_mem _ b hb
      omega
    · exact List.isPrefixOf_iff_prefix.mpr (List.prefix_append _ _)
  have htake : (natDec p.length ++ crlf ++ p ++ crlf ++ R).take (natDec p.length).length =
      natDec p.length := by
    rw [hbuf]; exact List.take_left _ _
  have hdrop : (natDec p.length ++ crlf ++ p ++ crlf ++ R).drop
      ((natDec p.length).length + 2) = p ++ (crlf ++ R) := by
    rw [hbuf, List.drop_append 2]
    simp [crlf]
  rw [parseSlot, hle]
  simp only [Option.bind_eq_bind, Option.some_bind]
  rw [htake, sscanfZu_natDec]
  simp only [Option.bind_eq_bind, Option.some_bind]
  rw [hdrop]
  rw [if_pos (by simp [crlf])]
  congr 1
  have h1 : (p ++ (crlf ++ R)).take p.length = p := List.take_left _ _
  have h2 : (p ++ (crlf ++ R)).drop (p.length + 2) = R := by
    rw [List.drop_append 2]
    simp [crlf]
  rw [h1, h2]

/-- The slot loop recovers exactly the serialized slots, whatever follows
them in the buffer. -/
theorem parseSlots_serializeSlots (ps : List (List Nat)) (tail : List Nat) :
    parseSlots ps.length (serializeSlots ps ++ tail) = some ps := by
  induction ps generalizing tail with
  | nil => rfl
  | cons p ps ih =>
    have hbuf : serializeSlots (p :: ps) ++ tail =
        natDec p.length ++ crlf ++ p ++ crlf ++ (serializeSlots ps ++ tail) := by
      simp [serializeSlots, List.append_assoc]
    rw [List.length_cons, parseSlots, hbuf, parseSlot_exact]
    simp only [Option.bind_eq_bind, Option.some_bind]
    rw [ih]
    rfl

/-! ## Codec round trips -/

theorem intDec_bytes (i : Int) : ∀ b ∈ intDec i, b ≠ 0 ∧ b ≠ 13 := by
  intro b hb
  rcases intDec_mem i b hb with h | h <;> omega

theorem natDec_bytes (n : Nat) : ∀ b ∈ natDec n, b ≠ 0 ∧ b ≠ 13 := by
  intro b hb
  have := natDec_mem n b hb
  omega

/-- Shared helper: `deserialize_response ∘ serialize_response = some`
(the response marshalling mirrors the request marshalling line for line). -/
theorem response_roundtrip (p : rpc_response) :
    deserialize_response (serialize_response p) = some p := by
  obtain ⟨err, vs⟩ := p
  have h1 : serialize_response ⟨err, vs⟩ =
      headerErrno ++ [58] ++ intDec err ++ crlf ++
        (headerReturnNum ++ [58] ++ natDec vs.length ++ crlf ++ serializeSlots vs) := by
    simp [serialize_response, List.append_assoc]
  rw [deserialize_response, h1,
    parseHeaderLine_exact _ _ _ (by decide) (intDec_bytes err)]
  simp only [Option.bind_eq_bind, Option.some_bind]
  rw [sscanfD_intDec]
  simp only [Option.bind_eq_bind, Option.some_bind]
  rw [parseHeaderLine_exact _ _ _ (by decide) (natDec_bytes vs.length)]
  simp only [Option.bind_eq_bind, Option.some_bind]
  rw [sscanfD_natDec]
  simp only [Option.bind_eq_bind, Option.some_bind, Int.toNat_natCast]
  have hs := parseSlots_serializeSlots vs []
  rw [List.append_nil] at hs
  rw [hs]
  rfl

/-! ## Framing lemmas -/

/-- `parse_message` on a buffer that starts with one complete envelope:
the payload is extracted and exactly the envelope is removed, whatever
follows (and whatever bytes, including NUL / CR / LF, the payload holds). -/
theorem parse_message_envelope (M R : List Nat) :
    parse_message (envelope M ++ R) = (some M, R) := by
  have hdpos : 1 ≤ (natDec M.length).length :=
    List.length_pos.mpr (natDec_ne_nil M.length)
  have hbuf1 : envelope M ++ R =
      (headerMsgLen ++ [58] ++ natDec M.length) ++ (headerSplit ++ (M ++ R)) := by
    simp [envelope, List.append_assoc]
  have hbuf2 : envelope M ++ R =
      headerMsgLen ++ (58 :: (natDec M.length ++ (headerSplit ++ (M ++ R)))) := by
    simp [envelope, List.append_assoc]
  have hsplit : strstrP (envelope M ++ R) headerSplit =
      some (headerMsgLen ++ [58] ++ natDec M.length).length := by
    rw [hbuf1]
    refine strstrP_append_first _ _ 13 _ rfl (by omega) ?_ ?_
    · intro b hb
      simp only [List.mem_append, List.mem_singleton] at hb
      rcases hb with (hb | hb) | hb
      · revert hb; revert b; decide
      · omega
      · exact natDec_bytes _ b hb
    · exact List.isPrefixOf_iff_prefix.mpr (List.prefix_append _ _)
  have hcolon : strstrP (envelope M ++ R) [58] = some headerMsgLen.length := by
    rw [hbuf2]
    refine strstrP_append_first _ _ 58 _ rfl (by omega) ?_ ?_
    · decide
    · simp [List.isPrefixOf]
  have hlen1 : (headerMsgLen ++ [58] ++ natDec M.length).length =
      headerMsgLen.length + 1 + (natDec M.length).length := by
    simp
    omega
  have hlenBytes :
      ((envelope M ++ R).take (headerMsgLen ++ [58] ++ natDec M.length).length).drop
        (headerMsgLen.length + 1) = natDec M.length := by
    rw [hbuf1, List.take_left]
    have h58 : headerMsgLen.length + 1 = (headerMsgLen ++ [58]).length := by simp
    rw [h58]
    exact List.drop_left _ _
  have hdropSplit4 :
      (envelope M ++ R).drop ((headerMsgLen ++ [58] ++ natDec M.length).length + 4) =
      M ++ R := by
    rw [hbuf1, List.drop_append 4]
    rfl
  have hdropAll :
      (envelope M ++ R).drop ((headerMsgLen ++ [58] ++ natDec M.length).length +
        4 + M.length) = R := by
    rw [hbuf1]
    have h4 : (headerMsgLen ++ [58] ++ natDec M.length).length + 4 + M.length =
        (headerMsgLen ++ [58] ++ natDec M.length).length + (4 + M.length) := by omega
    rw [h4, List.drop_append (4 + M.length),
      show 4 + M.length = headerSplit.length + M.length from by simp [headerSplit],
      List.drop_append M.length]
    exact List.drop_left _ _
  have hblen : (headerMsgLen ++ [58] ++ natDec M.length).length + 4 + M.length ≤
      (envelope M ++ R).length := by
    rw [hbuf1]
    simp [headerSplit]
    omega
  rw [parse_message, hsplit, hcolon]
  simp only
  rw [if_pos (by rw [hlen1]; omega)]
  rw [hlenBytes, atoiC_natDec]
  rw [if_pos (by positivity)]
  simp only [Int.toNat_natCast]
  rw [if_pos hblen, hdropSplit4, hdropAll, List.take_left]


/-! ## Directory-tree codec lemmas -/

theorem nodeCount_pos (t : dirtreenode) : 1 ≤ nodeCount t := by
  cases t with
  | mk name children => simp [nodeCount]

theorem nodeCount_le_list {c : dirtreenode} {cs : List dirtreenode} (h : c ∈ cs) :
    nodeCount c ≤ nodeCountList cs := by
  induction cs with
  | nil => simp at h
  | cons x xs ih =>
    rcases List.mem_cons.mp h with rfl | h
    · simp [nodeCountList]
    · have := ih h
      simp [nodeCountList]
      omega

/-- Serialization succeeds on a tree with valid names, and its output has at
least one byte per node. -/
theorem serialize_node_total_aux : ∀ fuel : Nat,
    (∀ t, nodeCount t ≤ fuel → treeNamesOk t = true →
       ∃ s, serialize_node t = some s ∧ nodeCount t ≤ s.length) ∧
    (∀ cs, nodeCountList cs ≤ fuel → forestNamesOk cs = true →
       ∃ s, serialize_children cs = some s ∧ nodeCountList cs ≤ s.length) := by
  intro fuel
  induction fuel with
  | zero =>
    constructor
    · intro t hc _
      have := nodeCount_pos t
      omega
    · intro cs hc _
      cases cs with
      | nil => exact ⟨[], rfl, by simp [nodeCountList]⟩
      | cons c cs =>
        have := nodeCount_pos c
        simp [nodeCountList] at hc
        omega
  | succ fuel ih =>
    obtain ⟨ihn, ihc⟩ := ih
    have hnode : ∀ t, nodeCount t ≤ fuel + 1 → treeNamesOk t = true →
        ∃ s, serialize_node t = some s ∧ nodeCount t ≤ s.length := by
      intro t hc hok
      obtain ⟨name, cs⟩ := t
      simp only [treeNamesOk, Bool.and_eq_true, decide_eq_true_eq] at hok
      obtain ⟨⟨_, hlen⟩, hcs⟩ := hok
      have hcnt : nodeCountList cs ≤ fuel := by
        simp [nodeCount] at hc
        omega
      obtain ⟨tail, htail, hble⟩ := ihc cs hcnt hcs
      refine ⟨headerTreeName ++ [58] ++ name ++ crlf ++
          headerTreeChildNum ++ [58] ++ natDec cs.length ++ crlf ++ tail, ?_, ?_⟩
      · rw [serialize_node, if_pos hlen, htail]
        rfl
      · simp [nodeCount]
        omega
    refine ⟨hnode, ?_⟩
    intro cs hc hok
    induction cs with
    | nil => exact ⟨[], rfl, by simp [nodeCountList]⟩
    | cons c cs ihl =>
      simp only [forestNamesOk, Bool.and_eq_true] at hok
      have hc1 : nodeCount c ≤ fuel + 1 := by
        simp [nodeCountList] at hc
        omega
      have hc2 : nodeCountList cs ≤ fuel + 1 := by
        simp [nodeCountList] at hc
        omega
      obtain ⟨s1, hs1, hb1⟩ := hnode c hc1 hok.1
      obtain ⟨t, ht, hb2⟩ := ihl hc2 hok.2
      refine ⟨s1 ++ t, ?_, ?_⟩
      · rw [serialize_children, hs1, ht]
        rfl
      · simp [nodeCountList]
        omega

/-- The round trip at the node level: with enough fuel, deserializing from a
buffer that starts with the serialization of a valid-named tree recovers the
tree and leaves the rest of the buffer. -/
theorem tree_roundtrip_aux : ∀ fuel : Nat,
    (∀ t s rest, treeNamesOk t = true → serialize_node t = some s → nodeCount t ≤ fuel →
       deserialize_node fuel (s ++ rest) = some (t, rest)) ∧
    (∀ cs s rest, forestNamesOk cs = true → serialize_children cs = some s →
       nodeCountList cs ≤ fuel →
       deserialize_children fuel cs.length (s ++ rest) = some (cs, rest)) := by
  intro fuel
  induction fuel with
  | zero =>
    constructor
    · intro t s rest _ _ hc
      have := nodeCount_pos t
      omega
    · intro cs s rest _ hs hc
      cases cs with
      | nil =>
        rw [serialize_children] at hs
        obtain rfl : ([] : List Nat) = s := Option.some_inj.mp hs
        rw [List.length_nil, List.nil_append, deserialize_children]
      | cons c cs =>
        have := nodeCount_pos c
        simp [nodeCountList] at hc
        omega
  | succ fuel ih =>
    obtain ⟨ihn, ihc⟩ := ih
    have hnode : ∀ t s rest, treeNamesOk t = true → serialize_node t = some s →
        nodeCount t ≤ fuel + 1 → deserialize_node (fuel + 1) (s ++ rest) = some (t, rest) := by
      intro t s rest hok hser hcnt
      obtain ⟨name, cs⟩ := t
      simp only [treeNamesOk, Bool.and_eq_true, List.all_eq_true, decide_eq_true_eq] at hok
      obtain ⟨⟨hnm, hlen⟩, hcs⟩ := hok
      rw [serialize_node, if_pos hlen] at hser
      obtain ⟨tail, htail, hsval⟩ : ∃ tail, serialize_children cs = some tail ∧
          (headerTreeName ++ [58] ++ name ++ crlf ++
            headerTreeChildNum ++ [58] ++ natDec cs.length ++ crlf ++ tail) = s := by
        cases h : serialize_children cs with
        | none => rw [h] at hser; simp at hser
        | some tail =>
          rw [h] at hser
          simp only [Option.map_some', Option.some_inj] at hser
          exact ⟨tail, rfl, hser⟩
      have hname_bytes : ∀ b ∈ name, b ≠ 0 ∧ b ≠ 13 :=
        fun b hb => ⟨((hnm b hb).1).1, ((hnm b hb).1).2⟩
      have hshape : s ++ rest = headerTreeName ++ [58] ++ name ++ crlf ++
          (headerTreeChildNum ++ [58] ++ natDec cs.length ++ crlf ++ (tail ++ rest)) := by
        rw [← hsval]
        simp [List.append_assoc]
      have hcnt2 : nodeCountList cs ≤ fuel := by
        simp [nodeCount] at hcnt
        omega
      have htake : name.takeWhile (fun b => decide ¬b = 0) = name := by
        refine List.takeWhile_eq_self_iff.mpr ?_
        intro b hb
        simpa using (hname_bytes b hb).1
      rw [deserialize_node, hshape,
        parseHeaderLine_exact _ _ _ (by decide) hname_bytes]
      simp only [Option.bind_eq_bind, Option.some_bind]
      rw [parseHeaderLine_exact _ _ _ (by decide) (natDec_bytes cs.length)]
      simp only [Option.bind_eq_bind, Option.some_bind]
      rw [sscanfD_natDec]
      simp only [Option.bind_eq_bind, Option.some_bind]
      rw [if_pos (by positivity)]
      simp only [Int.toNat_natCast]
      rw [htake, ihc cs tail rest hcs htail hcnt2]
      rfl
    have hchildren : ∀ cs s rest, forestNamesOk cs = true → serialize_children cs = some s →
        nodeCountList cs ≤ fuel + 1 →
        deserialize_children (fuel + 1) cs.length (s ++ rest) = some (cs, rest) := by
      intro cs
      induction cs with
      | nil =>
        intro s rest _ hs _
        rw [serialize_children] at hs
        obtain rfl : ([] : List Nat) = s := Option.some_inj.mp hs
        rw [List.length_nil, List.nil_append, deserialize_children]
      | cons c cs ihl =>
        intro s rest hok hs hcnt
        simp only [forestNamesOk, Bool.and_eq_true] at hok
        obtain ⟨s1, t2, hs1, ht2, rfl⟩ : ∃ s1 t2, serialize_node c = some s1 ∧
            serialize_children cs = some t2 ∧ s = s1 ++ t2 := by
          rw [serialize_children] at hs
          cases h1 : serialize_node c with
          | none => rw [h1] at hs; simp at hs
          | some s1 =>
            rw [h1] at hs
            cases h2 : serialize_children cs with
            | none => rw [h2] at hs; simp at hs
            | some t2 =>
              rw [h2] at hs
              simp only [Option.bind_eq_bind, Option.some_bind, Option.some_inj] at hs
              exact ⟨s1, t2, rfl, rfl, hs.symm⟩
        have hc1 : nodeCount c ≤ fuel + 1 := by
          simp [nodeCountList] at hcnt
          omega
        have hc2 : nodeCountList cs ≤ fuel + 1 := by
          simp [nodeCountList] at hcnt
          omega
        rw [List.length_cons, deserialize_children,
          show s1 ++ t2 ++ rest = s1 ++ (t2 ++ rest) from by simp [List.append_assoc],
          hnode c s1 (t2 ++ rest) hok.1 hs1 hc1]
        simp only [Option.bind_eq_bind, Option.some_bind]
        rw [ihl t2 rest hok.2 ht2 hc2]
        rfl
    exact ⟨hnode, hchildren⟩

/-- C3's round trip for the amended name condition. -/
theorem dirtree_roundtrip_of_namesOk (t : dirtreenode) (h : treeNamesOk t = true) :
    (serialize_dirtree t).bind deserialize_dirtree = some t := by
  obtain ⟨s, hs, hcle⟩ := (serialize_node_total_aux (nodeCount t)).1 t le_rfl h
  have hser : serialize_dirtree t = some s := hs
  rw [hser]
  simp only [Option.bind_eq_bind, Option.some_bind]
  rw [deserialize_dirtree]
  have hrt := (tree_roundtrip_aux (s.length + 1)).1 t s [] h hs (by omega)
  rw [List.append_nil] at hrt
  rw [hrt]
  rfl

/-! ## Claim theorems -/

/-- C1: for every request — any opcode, any parameter count, parameter slots
holding arbitrary bytes of the declared sizes — `deserialize_request` applied
to the byte stream produced by `serialize_request` yields a request equal to
the original: same `command_op`, same `param_num` (the slot count), and
slot-for-slot equal sizes and contents, even when slot bytes contain CR, LF
or NUL. -/
theorem claim_C1_request_roundtrip (r : rpc_request) :
    deserialize_request (serialize_request r) = some r := by
  obtain ⟨op, ps⟩ := r
  have h1 : serialize_request ⟨op, ps⟩ =
      headerCommand ++ [58] ++ intDec op ++ crlf ++
        (headerParamNum ++ [58] ++ natDec ps.length ++ crlf ++ serializeSlots ps) := by
    simp [serialize_request, List.append_assoc]
  rw [deserialize_request, h1,
    parseHeaderLine_exact _ _ _ (by decide) (intDec_bytes op)]
  simp only [Option.bind_eq_bind, Option.some_bind]
  rw [sscanfD_intDec]
  simp only [Option.bind_eq_bind, Option.some_bind]
  rw [parseHeaderLine_exact _ _ _ (by decide) (natDec_bytes ps.length)]
  simp only [Option.bind_eq_bind, Option.some_bind]
  rw [sscanfD_natDec]
  simp only [Option.bind_eq_bind, Option.some_bind, Int.toNat_natCast]
  have hs := parseSlots_serializeSlots ps []
  rw [List.append_nil] at hs
  rw [hs]
  rfl

/-- C2: if the framed envelopes of payloads `M1 … Mk` are concatenated into
the receive buffer, `k` successive calls to `parse_message` return `M1 … Mk`
in order, each call removing exactly its envelope and compacting the
remainder to the buffer front, and after the `k`-th call the buffer is
empty. -/
theorem claim_C2_framing_concat (Ms : List (List Nat)) :
    parseMessageIter Ms.length (Ms.map envelope).flatten = (Ms, []) := by
  induction Ms with
  | nil => rfl
  | cons M Ms ih =>
    rw [List.map_cons, List.flatten_cons, List.length_cons, parseMessageIter,
      parse_message_envelope]
    simp only [ih]

/-- C3 counterexample: a single-node tree whose 1013-byte name contains no
NUL, CR or LF — so the claim as stated applies to it — does not round trip:
serialization already has no defined result, because the name line
`sprintf` overflows the 1024-byte `temp_buf`. -/
theorem claim_C3_counterexample :
    (∀ b ∈ List.replicate 1013 97, b ≠ 0 ∧ b ≠ 13 ∧ b ≠ 10) ∧
    (serialize_dirtree (dirtreenode.mk (List.replicate 1013 97) [])).bind
      deserialize_dirtree = none := by
  constructor
  · intro b hb
    rw [List.mem_replicate] at hb
    omega
  · rw [serialize_dirtree, serialize_node,
      if_neg (by rw [List.length_replicate]; simp [TEMP_BUF_SIZE] :
        ¬ (List.replicate 1013 97).length + 12 ≤ TEMP_BUF_SIZE)]
    rfl

/-- C3 (amended): for every directory tree whose node names contain no NUL,
CR or LF bytes and are short enough for the serializer's 1024-byte line
buffer (at most 1012 bytes each), `deserialize_dirtree` applied to the buffer
written by `serialize_dirtree` returns a tree equal to the original — every
node's name, child count and left-to-right child order are preserved, with
the flattening strictly depth first. -/
theorem claim_C3_dirtree_roundtrip (t : dirtreenode) (h : treeNamesOk t = true) :
    (serialize_dirtree t).bind deserialize_dirtree = some t :=
  dirtree_roundtrip_of_namesOk t h

/-- C3 witness: a concrete three-level tree (with a colon inside one name)
round trips. -/
theorem claim_C3_witness :
    treeNamesOk (dirtreenode.mk [116, 109, 112]
      [dirtreenode.mk [97, 58, 98] [],
       dirtreenode.mk [115, 117, 98] [dirtreenode.mk [120] []]]) = true ∧
    (serialize_dirtree (dirtreenode.mk [116, 109, 112]
      [dirtreenode.mk [97, 58, 98] [],
       dirtreenode.mk [115, 117, 98] [dirtreenode.mk [120] []]])).bind
      deserialize_dirtree =
    some (dirtreenode.mk [116, 109, 112]
      [dirtreenode.mk [97, 58, 98] [],
       dirtreenode.mk [115, 117, 98] [dirtreenode.mk [120] []]]) := by
  have hok : treeNamesOk (dirtreenode.mk [116, 109, 112]
      [dirtreenode.mk [97, 58, 98] [],
       dirtreenode.mk [115, 117, 98] [dirtreenode.mk [120] []]]) = true := by
    simp [treeNamesOk, forestNamesOk, TEMP_BUF_SIZE]
  exact ⟨hok, claim_C3_dirtree_roundtrip _ hok⟩

/-- C4: the claim says `robust_write` retries a `send` failing with `EINTR`
or `EAGAIN`; in the source the guard `errno != EINTR || errno != EAGAIN` is
always true (a slip for `&&`, which leaves the `write = 0` retry assignment
dead), so the very first `EINTR` aborts the loop: with a trace whose first
`send` fails with `EINTR` and whose next `send` would deliver all 5 bytes,
`robust_write` returns 0 of 5. -/
theorem claim_C4_robust_write_eintr :
    robust_write [SendResult.errRes EINTR, SendResult.sent 5] 5 = some 0 := by decide

/-- C5 counterexample: a frame header with a non-numeric length field —
`"Message-Length:abc\r\n\r\n"` — is not rejected: `atoi` yields 0, which is
only logged, and `parse_message` extracts an empty message and removes the
frame, i.e. the malformed frame is treated as length 0 (the claim says this
must not happen). -/
theorem claim_C5_counterexample :
    parse_message (headerMsgLen ++ [58, 97, 98, 99, 13, 10, 13, 10]) = (some [], []) := by
  decide

/-- C5 (amended): the framer has no MalformedFrame path and never closes the
connection itself: a buffer whose bytes before the `"\r\n\r\n"` separator
hold no `':'` is returned unchanged (the frame stays in the buffer
indefinitely), and an over-large length field simply waits for more data,
also leaving the buffer unchanged; a non-numeric length is treated as
length 0 (see the counterexample). -/
theorem claim_C5_framer_behavior :
    parse_message [88, 89, 90, 13, 10, 13, 10, 65, 66] =
      (none, [88, 89, 90, 13, 10, 13, 10, 65, 66]) ∧
    parse_message (headerMsgLen ++ [58, 57, 57, 57, 57, 57, 57, 13, 10, 13, 10, 104, 105]) =
      (none, headerMsgLen ++ [58, 57, 57, 57, 57, 57, 57, 13, 10, 13, 10, 104, 105]) := by
  constructor <;> decide

/-- C6 counterexample: a response whose slot declares size 5 but whose slot
content is only the 2 bytes `"ab"` (followed by the line terminator and the
unrelated bytes `"XYZ"`) is not rejected: `deserialize_response` succeeds and
fills the slot with 5 bytes read verbatim past the slot's content —
`"ab\r\nX"` — instead of failing with MalformedMessage. -/
theorem claim_C6_counterexample :
    deserialize_response (headerErrno ++ [58, 48, 13, 10] ++ headerReturnNum ++
        [58, 49, 13, 10] ++ [53, 13, 10, 97, 98, 13, 10, 88, 89, 90]) =
      some ⟨0, [[97, 98, 13, 10, 88]]⟩ := by
  decide

/-- C6 (amended): the decoders perform no validation.  A declared slot size
larger than the slot's actual content succeeds, taking the declared number of
bytes verbatim from the following buffer contents (shown for
`deserialize_request`; the counterexample shows `deserialize_response`); a
header line without a `':'` leads to an assertion failure or out-of-bounds
access with no defined result (`none`), not a MalformedMessage error value;
and a declared slot count exceeding the slots present runs `strstr` past the
message into undefined behaviour (`none`). -/
theorem claim_C6_decoder_behavior :
    deserialize_request (headerCommand ++ [58, 50, 13, 10] ++ headerParamNum ++
        [58, 49, 13, 10] ++ [53, 13, 10, 97, 98, 13, 10, 88, 89, 90]) =
      some ⟨2, [[97, 98, 13, 10, 88]]⟩ ∧
    deserialize_request [67, 111, 109, 109, 97, 110, 100, 48, 13, 10] = none ∧
    deserialize_response (headerErrno ++ [58, 48, 13, 10] ++ headerReturnNum ++
        [58, 50, 13, 10] ++ [49, 13, 10, 97, 13, 10]) = none := by
  refine ⟨by decide, by decide, by decide⟩

/-- C7: for every `open` request, if the server's native `open` succeeds
(non-negative native handle `nfd`) the response carries `nfd + OFFSET`, hence
a value at least `OFFSET = 12345`, and the client stub returns it without
touching errno; if the native `open` fails (`-1`) the response carries `-1`
unchanged and the client stub returns `-1` with errno set to the
server-reported value. -/
theorem claim_C7_open_handles (nfd err : Int) :
    (0 ≤ nfd → open_rpc nfd err = some (nfd + OFFSET, none) ∧ OFFSET ≤ nfd + OFFSET) ∧
    (nfd = -1 → open_rpc nfd err = some (-1, some err)) := by
  have hrt := response_roundtrip (serve_open_response nfd err)
  constructor
  · intro h
    have hne : nfd ≠ -1 := by omega
    have hv : open_translate nfd = nfd + OFFSET := by rw [open_translate, if_pos hne]
    have hnn : ¬ (nfd + OFFSET < 0) := by simp only [OFFSET]; omega
    constructor
    · rw [open_rpc, hrt, Option.map_some']
      simp [close_stub, serve_open_response, integral_response, hv, atoiC_intDec, hnn]
    · simp only [OFFSET]; omega
  · intro h
    subst h
    have hv : open_translate (-1) = -1 := by rw [open_translate]; simp
    rw [open_rpc, hrt, Option.map_some']
    simp [close_stub, serve_open_response, integral_response, hv, atoiC_intDec]

/-- C7 witness: at native handle 3 with errno 7 the client sees
`3 + OFFSET = 12348` and errno untouched; at native `-1` with errno 2 the
client sees `-1` with errno 2. -/
theorem claim_C7_witness :
    ((0 : Int) ≤ 3 ∧ (open_rpc 3 7 = some (3 + OFFSET, none) ∧ OFFSET ≤ 3 + OFFSET)) ∧
    (((-1 : Int) = -1) ∧ open_rpc (-1) 2 = some (-1, some 2)) :=
  ⟨⟨by norm_num, (claim_C7_open_handles 3 7).1 (by norm_num)⟩,
   ⟨rfl, (claim_C7_open_handles (-1) 2).2 rfl⟩⟩

/-- C8: for every remote call whose decoded response carries a negative
integer return value, the client stub assigns the response's `Errno` value to
errno and returns that negative value; when the return value is non-negative
the stub leaves errno untouched and returns the value, after copying any
result bytes out (shown for the `close`-shaped and `read`-shaped stub tails,
end to end through the response codec). -/
theorem claim_C8_errno_convention (v err : Int) (data : List Nat)
    (hd : v.toNat ≤ data.length) :
    (v < 0 → close_rpc v err = some (v, some err) ∧
      read_rpc v err data = some (v, some err, none)) ∧
    (0 ≤ v → close_rpc v err = some (v, none) ∧
      read_rpc v err data = some (v, none, some (data.take v.toNat))) := by
  have hrt1 := response_roundtrip (integral_response err v)
  have hrt2 := response_roundtrip ⟨err, [intDec v, data]⟩
  constructor
  · intro h
    constructor
    · rw [close_rpc, hrt1, Option.map_some']
      simp [close_stub, integral_response, atoiC_intDec, h]
    · rw [read_rpc, hrt2, Option.map_some']
      simp [read_stub, atoiC_intDec, h]
  · intro h
    have hnl : ¬ (v < 0) := by omega
    constructor
    · rw [close_rpc, hrt1, Option.map_some']
      simp [close_stub, integral_response, atoiC_intDec, hnl]
    · rw [read_rpc, hrt2, Option.map_some']
      simp [read_stub, atoiC_intDec, hnl, hd]

/-- C8 witness: a response with return value −2 and errno 9 makes both stub
shapes set errno 9 and return −2; a response with return value 1, errno 0 and
data `"ab"` leaves errno untouched, returns 1 and copies out `"a"`. -/
theorem claim_C8_witness :
    (close_rpc (-2) 9 = some (-2, some 9) ∧
      read_rpc (-2) 9 [] = some (-2, some 9, none)) ∧
    (close_rpc 1 0 = some (1, none) ∧
      read_rpc 1 0 [97, 98] = some (1, none, some [97])) :=
  ⟨(claim_C8_errno_convention (-2) 9 [] (by decide)).1 (by norm_num),
   (claim_C8_errno_convention 1 0 [97, 98] (by decide)).2 (by norm_num)⟩

/-- C9 counterexample: the claim says that on syscall failure the opaque data
slots are present with size 0; but the response `serve_stat` builds for a
failed `stat` carries the full `sizeof(struct stat) = 144`-byte image in its
data slot — the slot sizes are `[2, 144]` (2 for the decimal `"-1"`), and
144 is not 0. -/
theorem claim_C9_counterexample :
    (serve_stat_response (-1) 2 (List.replicate 144 0)).return_vals.map List.length =
      [2, 144] ∧ (144 : Nat) ≠ 0 := by
  constructor
  · have h2 : (intDec (-1)).length = 2 := by decide
    simp [serve_stat_response, h2]
  · decide

/-- C9 (amended): every response the dispatcher builds for a given opcode has
the same fixed number of return slots whether the syscall succeeded or failed
— `read`: 2, `getdirentries`: 3, `stat`: 2, the integer-returning ops: 1 —
and on failure the `read` and `getdirentries` data slots are present with
size 0, while the `stat` image slot is always present at its fixed platform
size (144 bytes, not 0); so a client decoding a response for the opcode it
sent never finds fewer slots than it indexes. -/
theorem claim_C9_response_slot_shape (rv err basep : Int) (rbuf gbuf img : List Nat)
    (himg : img.length = STAT_SIZE) :
    (serve_read_response rv err rbuf).return_vals.length = 2 ∧
    (serve_getdirentries_response rv err gbuf basep).return_vals.length = 3 ∧
    (serve_stat_response rv err img).return_vals.length = 2 ∧
    (integral_response err rv).return_vals.length = 1 ∧
    (rv < 0 →
      (serve_read_response rv err rbuf).return_vals[1]? = some [] ∧
      (serve_getdirentries_response rv err gbuf basep).return_vals[1]? = some []) ∧
    ((serve_stat_response rv err img).return_vals[1]? = some img ∧
      img.length = STAT_SIZE) := by
  refine ⟨rfl, rfl, rfl, rfl, ?_, rfl, himg⟩
  intro h
  have : ¬ (0 ≤ rv) := by omega
  constructor
  · simp [serve_read_response, this]
  · simp [serve_getdirentries_response, this]

/-- C9 witness: the shape facts at a failed syscall (`rv = -1`). -/
theorem claim_C9_witness :
    (List.replicate 144 0).length = STAT_SIZE ∧
    ((serve_read_response (-1) 2 [5]).return_vals.length = 2 ∧
     (serve_getdirentries_response (-1) 2 [] 7).return_vals.length = 3 ∧
     (serve_stat_response (-1) 2 (List.replicate 144 0)).return_vals.length = 2 ∧
     (integral_response 2 (-1)).return_vals.length = 1 ∧
     ((-1 : Int) < 0 →
       (serve_read_response (-1) 2 [5]).return_vals[1]? = some [] ∧
       (serve_getdirentries_response (-1) 2 [] 7).return_vals[1]? = some []) ∧
     ((serve_stat_response (-1) 2 (List.replicate 144 0)).return_vals[1]? =
        some (List.replicate 144 0) ∧
      (List.replicate 144 0).length = STAT_SIZE)) :=
  ⟨by simp [STAT_SIZE],
   claim_C9_response_slot_shape (-1) 2 7 [5] [] (List.replicate 144 0)
     (by simp [STAT_SIZE])⟩

/-- C10: `wait_response` zeroes the client's session buffer and resets its
recorded length to 0 on every entry, so any bytes still buffered from before
the call can never contribute to the result: the result is independent of the
stale buffer contents, and even a complete pipelined response left over in
the buffer is discarded — only the freshly received envelope is decoded. -/
theorem claim_C10_wait_response_resets (stale1 stale2 : List Nat)
    (incoming : List (List Nat)) (q : rpc_response) :
    wait_response stale1 incoming = wait_response stale2 incoming ∧
    wait_response stale1 [envelope (serialize_response q)] = some q := by
  constructor
  · rfl
  · rw [wait_response]
    show waitResponseGo [] [envelope (serialize_response q)] = some q
    rw [waitResponseGo, List.nil_append]
    have hp : parse_message (envelope (serialize_response q)) =
        (some (serialize_response q), []) := by
      have := parse_message_envelope (serialize_response q) []
      rwa [List.append_nil] at this
    rw [hp]
    exact response_roundtrip q

end RFPC
